import Mathlib

/-!
Verification of `atflow/dataset.py` (repository `eywalker/atflow`).

The module is embedded shallowly:

* NumPy arrays are modelled by their leading (batch) axis only: a leaf is a
  `List ℚ` of rows.  The claims under verification concern batch-dimension
  bookkeeping (splits, shuffles, minibatch cursors, which leaves get rewritten),
  none of which depends on the inner axes of a leaf.
* Nested input/target structures are kept in their flattened form (the source
  itself stores `self._train_inputs` etc. flattened and only re-packs on
  access); a nesting template (`nest.pack_sequence_as(inputs, range(n))`)
  reduces to its leaf count in this flat view.
* The global NumPy pseudo-random generator (`np.random.seed`,
  `np.random.permutation`) is an external collaborator.  It is modelled by the
  `RandLib` contract below: an explicit state type threaded through every
  operation, a deterministic seeding function, and a permutation draw that is
  guaranteed to return a permutation of `List.range n`.  The concrete instance
  `natRand` is used to evaluate the model on concrete inputs.
* `np.std(·, ddof=1)` takes a real square root, which is irrational on ℚ; the
  square-root operation is therefore an abstract parameter `sqrtA : ℚ → ℚ` of
  the statistics model.  No claim under verification depends on its value.
* Python exceptions are modelled by `Except String`.
-/

namespace Atflow

/-- Contract for the global pseudo-random library (`np.random`): a state type
`S`, a deterministic `seedFn` modelling `np.random.seed`, and `permFn`
modelling `np.random.permutation n`, which returns a list guaranteed to be a
permutation of `List.range n` together with the successor state. -/
structure RandLib where
  S : Type
  seedFn : ℕ → S
  permFn : S → ℕ → List ℕ × S
  perm_spec : ∀ s n, (permFn s n).1.Perm (List.range n)

/-- A concrete executable instance of `RandLib`: the state is a counter and
each draw rotates `List.range n` by the counter. -/
@[reducible] def natRand : RandLib where
  S := ℕ
  seedFn := fun k => k
  permFn := fun s n => ((List.range n).rotate s, s + 1)
  perm_spec := fun s n => List.rotate_perm _ _

/-- NumPy fancy indexing `x[idx]` along axis 0: one output row per index.
Indices in the source always come from a permutation of the row range, so the
default row for an out-of-range index is never exercised. -/
def gather (x : List ℚ) (idx : List ℕ) : List ℚ :=
  idx.map (fun i => x.getD i 0)

/-- `has_same_batch` (dataset.py lines 113-115): all leaves share the leading
dimension of the first leaf. -/
def hasSameBatch (data : List (List ℚ)) : Bool :=
  data.all (fun x => x.length == (data.headD []).length)

/-- `np.mean` over the batch axis of a 1-axis leaf. -/
def listMean (x : List ℚ) : ℚ := x.sum / (x.length : ℚ)

/-- `np.std(·, ddof=1) ** 2` over the batch axis of a 1-axis leaf (Bessel
corrected sample variance).  On a single-row leaf NumPy yields NaN (0/0);
in ℚ the division by zero yields 0, a case no claim exercises. -/
def sampleVar (x : List ℚ) : ℚ :=
  let mu := listMean x
  ((x.map (fun v => (v - mu) ^ 2)).sum) / ((x.length : ℚ) - 1)

/-- Python 3 `round`: nearest integer, ties to even. -/
def pyRound (q : ℚ) : ℤ :=
  let f := ⌊q⌋
  if q - f < 1/2 then f
  else if (1 : ℚ)/2 < q - f then f + 1
  else if f % 2 = 0 then f else f + 1

/-- Python `sorted` on a list of indices (ascending). -/
def sortNat (l : List ℕ) : List ℕ := l.insertionSort (· ≤ ·)

/-- `get_perm` inside `batchify` (dataset.py lines 32-36): a fresh random
permutation when `shuffle`, else `np.arange(N)`. -/
def getPerm (R : RandLib) (shuffle : Bool) (s : R.S) (N : ℕ) : List ℕ × R.S :=
  if shuffle then R.permFn s N else (List.range N, s)

/-- The `batchify` generator loop (dataset.py lines 38-58), yielding the index
slices it gathers each batch from.  The generator may be infinite
(`n_epochs <= 0`), so the model consumes explicit fuel: one unit per loop
iteration; with enough fuel the result is the full finite yield sequence. -/
def batchifyIdx (R : RandLib) (N batchsize : ℕ) (nEpochs : ℤ) (shuffle cutoff : Bool) :
    ℕ → List ℕ → ℕ → ℕ → R.S → List (List ℕ)
  | 0, _, _, _, _ => []
  | fuel + 1, perm, pos, epoch, s =>
    if nEpochs ≤ 0 ∨ (epoch : ℤ) < nEpochs - 1 ∨ pos < N then
      if N < pos + batchsize then
        if (epoch : ℤ) = nEpochs - 1 then
          if cutoff then [] else [perm.drop pos]
        else
          let missing := pos + batchsize - N
          let p := getPerm R shuffle s N
          (perm.drop pos ++ p.1.take missing) ::
            batchifyIdx R N batchsize nEpochs shuffle cutoff fuel p.1 missing (epoch + 1) p.2
      else
        ((perm.drop pos).take batchsize) ::
          batchifyIdx R N batchsize nEpochs shuffle cutoff fuel perm (pos + batchsize) epoch s
    else []

/-- `batchify(data, batchsize, n_epochs, shuffle, cutoff)` (dataset.py lines
16-58) on flattened data: each yielded batch gathers every leaf by the same
index slice. -/
def batchify (R : RandLib) (data : List (List ℚ)) (batchsize : ℕ) (nEpochs : ℤ)
    (shuffle cutoff : Bool) (fuel : ℕ) (s : R.S) : List (List (List ℚ)) :=
  let N := (data.headD []).length
  let p := getPerm R shuffle s N
  (batchifyIdx R N batchsize nEpochs shuffle cutoff fuel p.1 0 0 p.2).map
    (fun idx => data.map (fun x => gather x idx))

/-- The `Dataset` object state (dataset.py lines 61-174).  Leaves are stored
flattened, as in the source (`self._train_inputs` etc.); a nesting template is
its leaf count in this flat model; `trainIdx`/`validationIdx` exist only when
an automatic split occurred; the `normalizer` closure is stored as a function.
Shape bookkeeping (`inputs_shape`, via the external `TensorShape` /
`batchify_shape` helpers) and the opaque `info` kwargs are not modelled. -/
structure Dataset where
  inputsStructure : ℕ
  targetsStructure : ℕ
  inputsLabel : List String
  targetsLabel : List String
  trainInputs : List (List ℚ)
  trainTargets : List (List ℚ)
  validationInputs : Option (List (List ℚ))
  validationTargets : Option (List (List ℚ))
  testInputs : Option (List (List ℚ))
  testTargets : Option (List (List ℚ))
  trainIdx : Option (List ℕ)
  validationIdx : Option (List ℕ)
  inputsMean : List ℚ
  inputsStd : List ℚ
  inputsStationaryMean : List ℚ
  inputsStationaryStd : List ℚ
  minibatchIdx : ℕ
  trainPerm : List ℕ
  minibatchIndicies : Option (List ℕ)
  normalizer : List (List ℚ) → List (List ℚ)

instance : Inhabited Dataset where
  default :=
    { inputsStructure := 0, targetsStructure := 0, inputsLabel := [],
      targetsLabel := [], trainInputs := [], trainTargets := [],
      validationInputs := none, validationTargets := none, testInputs := none,
      testTargets := none, trainIdx := none, validationIdx := none,
      inputsMean := [], inputsStd := [], inputsStationaryMean := [],
      inputsStationaryStd := [], minibatchIdx := 0, trainPerm := [],
      minibatchIndicies := none, normalizer := fun x => x }

/-- `n_train_samples` (dataset.py lines 347-352): leading dimension of the
first training-input leaf. -/
def Dataset.nTrainSamples (d : Dataset) : ℕ := (d.trainInputs.headD []).length

/-- `n_test_samples` (dataset.py lines 354-359). -/
def Dataset.nTestSamples (d : Dataset) : ℕ :=
  match d.testInputs with
  | none => 0
  | some t => (t.headD []).length

/-- `n_validation_samples` (dataset.py lines 361-366). -/
def Dataset.nValidationSamples (d : Dataset) : ℕ :=
  match d.validationInputs with
  | none => 0
  | some v => (v.headD []).length

/-- `update_stats` (dataset.py lines 266-284) on 1-axis leaves: the default
`axis=None` reduces over the batch axis, so per-channel mean/std coincide with
the stationary statistics; `np.std` uses `ddof=1` and its square root is taken
by the abstract `sqrtA`. -/
def Dataset.updateStats (sqrtA : ℚ → ℚ) (d : Dataset) : Dataset :=
  { d with
    inputsMean := d.trainInputs.map listMean,
    inputsStd := d.trainInputs.map (fun x => sqrtA (sampleVar x)),
    inputsStationaryMean := d.trainInputs.map listMean,
    inputsStationaryStd := d.trainInputs.map (fun x => sqrtA (sampleVar x)) }

/-- The Python-truthiness seeding (`if seed: np.random.seed(seed)`, dataset.py
lines 146-147 and 426-427): `None` and `0` are both falsy and leave the
global random state untouched. -/
def seedState (R : RandLib) (seed : Option ℕ) (s : R.S) : R.S :=
  match seed with
  | some k => if k ≠ 0 then R.seedFn k else s
  | none => s

/-- `next_epoch(seed=None)` (dataset.py lines 419-428): reset the cursor, seed
the global generator when `seed` is truthy, draw a fresh permutation of
`[0, n_train_samples)`. -/
def Dataset.nextEpoch (R : RandLib) (seed : Option ℕ) (d : Dataset) (s : R.S) :
    Dataset × R.S :=
  let d := { d with minibatchIdx := 0 }
  let s := seedState R seed s
  let p := R.permFn s d.nTrainSamples
  ({ d with trainPerm := p.1 }, p.2)

/-- `minibatch(batch_size)` (dataset.py lines 392-413): size guard, epoch
rollover when the cursor would overflow, slice of the permutation, record of
`minibatch_indicies`, cursor advance, and row gathering on every leaf. -/
def Dataset.minibatch (R : RandLib) (b : ℕ) (d : Dataset) (s : R.S) :
    Except String ((List (List ℚ) × List (List ℚ)) × Dataset × R.S) :=
  if d.nTrainSamples < b then
    .error "Batch size must be smaller than or equal to total number of samples"
  else
    let ds := if d.nTrainSamples < d.minibatchIdx + b then d.nextEpoch R none s else (d, s)
    let d := ds.1
    let idx := (d.trainPerm.drop d.minibatchIdx).take b
    let d := { d with minibatchIndicies := some idx, minibatchIdx := d.minibatchIdx + b }
    .ok ((d.trainInputs.map (fun x => gather x idx),
          d.trainTargets.map (fun t => gather t idx)), d, ds.2)

/-- The leaf-wise normalization comprehension (dataset.py lines 329-333):
`zip(flat_data, inputs_mean, inputs_std, control)` truncates to the shortest
sequence, as Python `zip` does. -/
def normalizeLeaves : List (List ℚ) → List ℚ → List ℚ → List Bool → List (List ℚ)
  | x :: xs, mu :: mus, sg :: sgs, c :: cs =>
    (if c then x.map (fun v => (v - mu) / sg) else x) :: normalizeLeaves xs mus sgs cs
  | _, _, _, _ => []

/-- `normalize(axis=None, control=None)` (dataset.py lines 314-345): recompute
stats, default `control` to all-true, store the closure as `normalizer`, apply
it destructively to train and — when present — test and validation inputs,
then recompute stats. -/
def Dataset.normalize (sqrtA : ℚ → ℚ) (control : Option (List Bool)) (d : Dataset) :
    Dataset :=
  let d := d.updateStats sqrtA
  let control := match control with
    | none => List.replicate d.trainInputs.length true
    | some c => c
  let mean := d.inputsMean
  let std := d.inputsStd
  let f := fun data => normalizeLeaves data mean std control
  let d := { d with
    normalizer := f,
    trainInputs := f d.trainInputs,
    testInputs := match d.testInputs with
      | none => none
      | some t => some (f t),
    validationInputs := match d.validationInputs with
      | none => none
      | some v => some (f v) }
  d.updateStats sqrtA

/-- The structure/batch checks run on the optional test set (dataset.py lines
127-134) and validation set (lines 136-142): `nest.assert_same_structure`
reduces to a leaf-count comparison in the flat model, and giving inputs
without targets is itself a structure mismatch. -/
def checkOptionalSet (nLeavesI nLeavesT : ℕ)
    (optI optT : Option (List (List ℚ))) (label : String) : Except String Unit :=
  match optI with
  | none => .ok ()
  | some ti =>
    if ti.length ≠ nLeavesI then .error "StructureError"
    else
      match optT with
      | none => .error "StructureError"
      | some tt =>
        if tt.length ≠ nLeavesT then .error "StructureError"
        else if ¬ hasSameBatch (ti ++ tt) then
          .error ("All " ++ label ++ " inputs and targets must share same batch size")
        else .ok ()

/-- The tail of `Dataset.__init__` (dataset.py lines 162-174): store the three
data roles, compute statistics, initialize the minibatch cursor and
permutation, call `next_epoch()`, and set the identity `normalizer`. -/
def finishInit (R : RandLib) (sqrtA : ℚ → ℚ) (nLeavesI nLeavesT : ℕ)
    (trainI trainT : List (List ℚ))
    (valI valT testI testT : Option (List (List ℚ)))
    (trainIdx valIdx : Option (List ℕ)) (s : R.S) : Dataset × R.S :=
  let d : Dataset :=
    { inputsStructure := nLeavesI,
      targetsStructure := nLeavesT,
      inputsLabel := (List.range nLeavesI).map (fun i => "inputs" ++ toString i),
      targetsLabel := (List.range nLeavesT).map (fun i => "targets" ++ toString i),
      trainInputs := trainI, trainTargets := trainT,
      validationInputs := valI, validationTargets := valT,
      testInputs := testI, testTargets := testT,
      trainIdx := trainIdx, validationIdx := valIdx,
      inputsMean := [], inputsStd := [],
      inputsStationaryMean := [], inputsStationaryStd := [],
      minibatchIdx := 0,
      trainPerm := List.range (trainI.headD []).length,
      minibatchIndicies := none,
      normalizer := fun x => x }
  let d := d.updateStats sqrtA
  Dataset.nextEpoch R none d s

/-- `Dataset.__init__` (dataset.py lines 66-174) on pre-flattened data: batch
consistency checks, optional-set checks, then either the automatic
train/validation split (`validation_inputs is None and train_frac > 0`,
lines 144-157, with Python-truthy seeding and `round`-based split point) or
direct adoption of `inputs`/`targets` as the training set. -/
def mkDataset (R : RandLib) (sqrtA : ℚ → ℚ) (inputs targets : List (List ℚ))
    (testInputs testTargets validationInputs validationTargets : Option (List (List ℚ)))
    (seed : Option ℕ) (trainFrac : ℚ) (s : R.S) : Except String (Dataset × R.S) :=
  if inputs.isEmpty then .error "IndexError: list index out of range"
  else if ¬ hasSameBatch (inputs ++ targets) then
    .error "All inputs and targets must share same batch size"
  else
    match checkOptionalSet inputs.length targets.length testInputs testTargets "test" with
    | .error e => .error e
    | .ok _ =>
      match checkOptionalSet inputs.length targets.length validationInputs validationTargets
          "validation" with
      | .error e => .error e
      | .ok _ =>
        let nInputs := (inputs.headD []).length
        if validationInputs.isNone ∧ 0 < trainFrac then
          let s1 := seedState R seed s
          let p := R.permFn s1 nInputs
          let split := (pyRound ((nInputs : ℚ) * trainFrac)).toNat
          let trainIdx := sortNat (p.1.take split)
          let validationIdx := sortNat (p.1.drop split)
          .ok (finishInit R sqrtA inputs.length targets.length
            (inputs.map (fun x => gather x trainIdx))
            (targets.map (fun t => gather t trainIdx))
            (some (inputs.map (fun x => gather x validationIdx)))
            (some (targets.map (fun t => gather t validationIdx)))
            testInputs testTargets (some trainIdx) (some validationIdx) p.2)
        else
          .ok (finishInit R sqrtA inputs.length targets.length
            inputs targets validationInputs validationTargets
            testInputs testTargets none none s)

/-- `copy()` (dataset.py lines 258-264): rebuild a `Dataset` from the current
train/validation/test contents with default `seed`/`train_frac`; the
`.copy()` duplication of the training arrays is the identity in this pure
model. -/
def Dataset.copy (R : RandLib) (sqrtA : ℚ → ℚ) (d : Dataset) (s : R.S) :
    Except String (Dataset × R.S) :=
  mkDataset R sqrtA d.trainInputs d.trainTargets d.testInputs d.testTargets
    d.validationInputs d.validationTargets none (4/5) s

/-- Python `min` over a projection of the held datasets; `None` models the
`ValueError` Python raises on an empty sequence. -/
def mdMinBy (f : Dataset → ℕ) : List Dataset → Option ℕ
  | [] => none
  | d :: ds => some (ds.foldl (fun m x => min m (f x)) (f d))

/-- `MultiDataset.n_train_samples` (dataset.py lines 506-508). -/
def mdNTrainSamples (ds : List Dataset) : Option ℕ :=
  mdMinBy Dataset.nTrainSamples ds

/-- `MultiDataset.n_test_samples` (dataset.py lines 510-512). -/
def mdNTestSamples (ds : List Dataset) : Option ℕ :=
  mdMinBy Dataset.nTestSamples ds

/-- `MultiDataset.n_validation_samples` (dataset.py lines 514-516). -/
def mdNValidationSamples (ds : List Dataset) : Option ℕ :=
  mdMinBy Dataset.nValidationSamples ds

/-- The list comprehension `[dataset.minibatch(batch_size) for dataset in
self._datasets]` (dataset.py line 546), evaluated left to right against the
shared global random state; any sub-call's exception propagates. -/
def mdMinibatchGo (R : RandLib) (b : ℕ) :
    List Dataset → R.S →
    Except String (List (List (List ℚ) × List (List ℚ)) × List Dataset × R.S)
  | [], s => .ok ([], [], s)
  | d :: ds, s =>
    match d.minibatch R b s with
    | .error e => .error e
    | .ok (batch, d1, s1) =>
      match mdMinibatchGo R b ds s1 with
      | .error e => .error e
      | .ok (batches, ds1, s2) => .ok (batch :: batches, d1 :: ds1, s2)

/-- `MultiDataset.minibatch(batch_size)` (dataset.py lines 542-548): size
guard against the minimum sub-dataset size, then one same-sized minibatch per
held dataset, returned as the two parallel per-dataset sequences
(`zip(*minibatches)` then `list(...)`). -/
def mdMinibatch (R : RandLib) (b : ℕ) (ds : List Dataset) (s : R.S) :
    Except String ((List (List (List ℚ)) × List (List (List ℚ))) × List Dataset × R.S) :=
  match mdNTrainSamples ds with
  | none => .error "ValueError: min() arg is an empty sequence"
  | some m =>
    if m < b then
      .error "Batch size must be smaller than or equal to total number of samples"
    else
      match mdMinibatchGo R b ds s with
      | .error e => .error e
      | .ok (batches, ds1, s1) =>
        .ok ((batches.map Prod.fst, batches.map Prod.snd), ds1, s1)

/-- Repeated `minibatch(b)` calls (for the epoch-coverage property),
collecting each call's recorded `minibatch_indicies`; an error stops the
run. -/
def minibatchRun (R : RandLib) (b : ℕ) :
    ℕ → Dataset → R.S → List (List ℕ) × Dataset × R.S
  | 0, d, s => ([], d, s)
  | k + 1, d, s =>
    match d.minibatch R b s with
    | .error _ => ([], d, s)
    | .ok (_, d1, s1) =>
      let rest := minibatchRun R b k d1 s1
      ((d1.minibatchIndicies.getD []) :: rest.1, rest.2)

/-- Projection of a constructor result to its dataset, for evaluating the
model at concrete inputs (`default` is never reached in those uses). -/
def okDataset {S : Type} (e : Except String (Dataset × S)) : Dataset :=
  match e with
  | .ok (d, _) => d
  | .error _ => default

/-- Projection of a constructor result to its final random state. -/
def okState {S : Type} (dflt : S) (e : Except String (Dataset × S)) : S :=
  match e with
  | .ok (_, s) => s
  | .error _ => dflt

/-- Whether an `Except` result is a success. -/
def exceptIsOk {ε α : Type} (e : Except ε α) : Bool :=
  match e with
  | .ok _ => true
  | .error _ => false

/-- A small concrete dataset (4 training rows, permutation already drawn)
used to evaluate the model at concrete inputs. -/
def dsEx : Dataset :=
  { (default : Dataset) with
    inputsStructure := 1, targetsStructure := 1,
    trainInputs := [[10, 20, 30, 40]], trainTargets := [[1, 2, 3, 4]],
    trainPerm := [2, 0, 3, 1] }

/-- A concrete dataset with two input leaves plus test and validation sets,
used to evaluate the normalization model at concrete inputs. -/
def dsNorm : Dataset :=
  { (default : Dataset) with
    inputsStructure := 2, targetsStructure := 1,
    trainInputs := [[1, 2, 3], [4, 5, 6]], trainTargets := [[7, 8, 9]],
    testInputs := some [[10, 20, 30], [1, 1, 1]],
    testTargets := some [[0, 0, 0]],
    validationInputs := some [[4, 6, 8], [2, 2, 2]],
    validationTargets := some [[1, 1, 1]],
    trainPerm := [0, 1, 2] }

/-- A concrete single-leaf dataset of a given training size, used to evaluate
the `MultiDataset` model at concrete inputs. -/
def dsOfSize (n : ℕ) : Dataset :=
  { (default : Dataset) with
    inputsStructure := 1, targetsStructure := 1,
    trainInputs := [(List.range n).map (fun i => (i : ℚ))],
    trainTargets := [(List.range n).map (fun i => (i : ℚ))],
    trainPerm := List.range n }

theorem getPerm_length (R : RandLib) (sh : Bool) (s : R.S) (N : ℕ) :
    (getPerm R sh s N).1.length = N := by
  unfold getPerm
  split
  · exact ((R.perm_spec s N).length_eq).trans (List.length_range N)
  · exact List.length_range N

theorem getPerm_perm (R : RandLib) (sh : Bool) (s : R.S) (N : ℕ) :
    (getPerm R sh s N).1.Perm (List.range N) := by
  unfold getPerm
  split
  · exact R.perm_spec s N
  · exact List.Perm.refl _

/-- Counting behaviour of one last (`n_epochs = 1`) epoch of the `batchify`
loop, from an arbitrary cursor position: the yielded index slices chunk the
rest of the permutation. -/
theorem batchifyIdx_oneEpoch (R : RandLib) (N B : ℕ) (sh : Bool) (hB : 0 < B) :
    ∀ (fuel pos : ℕ) (perm : List ℕ) (s : R.S),
      perm.length = N → pos ≤ N → N - pos ≤ fuel * B →
      ((batchifyIdx R N B 1 sh false fuel perm pos 0 s).map List.length).sum = N - pos ∧
      (batchifyIdx R N B 1 sh false fuel perm pos 0 s).length = (N - pos + B - 1) / B ∧
      (batchifyIdx R N B 1 sh true fuel perm pos 0 s).map List.length
        = List.replicate ((N - pos) / B) B := by
  intro fuel
  induction fuel with
  | zero =>
    intro pos perm s hlen hpos hfuel
    have h0 : N - pos = 0 := by omega
    refine ⟨?_, ?_, ?_⟩
    · rw [h0]; rfl
    · rw [h0]
      exact (Nat.div_eq_of_lt (by omega)).symm
    · rw [h0, Nat.zero_div]; rfl
  | succ fuel ih =>
    intro pos perm s hlen hpos hfuel
    by_cases hlt : pos < N
    · have hguard : (1 : ℤ) ≤ 0 ∨ ((0 : ℕ) : ℤ) < 1 - 1 ∨ pos < N :=
        Or.inr (Or.inr hlt)
      by_cases hover : N < pos + B
      · have hlast : ((0 : ℕ) : ℤ) = 1 - 1 := by norm_num
        simp only [batchifyIdx, if_pos hguard, if_pos hover, if_pos hlast]
        refine ⟨by simp [hlen], ?_, ?_⟩
        · show (1 : ℕ) = (N - pos + B - 1) / B
          have heq : N - pos + B - 1 = (N - pos - 1) + B := by omega
          rw [heq, Nat.add_div_right _ hB, Nat.div_eq_of_lt (by omega)]
        · simp [Nat.div_eq_of_lt (by omega : N - pos < B)]
      · have hle : pos + B ≤ N := by omega
        simp only [batchifyIdx, if_pos hguard, if_neg hover]
        have hmul : (fuel + 1) * B = fuel * B + B := Nat.succ_mul fuel B
        obtain ⟨ih1, ih2, ih3⟩ := ih (pos + B) perm s hlen hle (by omega)
        refine ⟨?_, ?_, ?_⟩
        · simp only [List.map_cons, List.sum_cons, ih1, List.length_take,
            List.length_drop, hlen]
          omega
        · simp only [List.length_cons, ih2]
          have heq : N - pos + B - 1 = (N - (pos + B) + B - 1) + B := by omega
          rw [heq, Nat.add_div_right _ hB]
        · simp only [List.map_cons, ih3, List.length_take, List.length_drop, hlen]
          have heq : N - pos = (N - (pos + B)) + B := by omega
          rw [heq, Nat.add_div_right _ hB, Nat.min_eq_left (by omega)]
          rfl
    · have hguard : ¬ ((1 : ℤ) ≤ 0 ∨ ((0 : ℕ) : ℤ) < 1 - 1 ∨ pos < N) := by
        push_neg
        refine ⟨by norm_num, by norm_num, by omega⟩
      simp only [batchifyIdx, if_neg hguard]
      have h0 : N - pos = 0 := by omega
      refine ⟨?_, ?_, ?_⟩
      · rw [h0]; rfl
      · rw [h0]
        exact (Nat.div_eq_of_lt (by omega)).symm
      · rw [h0, Nat.zero_div]; rfl

theorem length_getD_map_gather (data : List (List ℚ)) (idx : List ℕ) :
    ∀ j, j < data.length →
      ((data.map (fun x => gather x idx)).getD j []).length = idx.length := by
  induction data with
  | nil => intro j h; exact absurd h (by simp)
  | cons x xs ih =>
    intro j h
    cases j with
    | zero => simp [gather]
    | succ j =>
      have := ih j (by simpa using Nat.lt_of_succ_lt_succ h)
      simpa using this

/-- C3: for data whose leaves all share first-dimension length `N ≥ 1` and any
batch size `B ≥ 1`, `batchify` with `n_epochs = 1` and `cutoff = False` yields
exactly `⌈N/B⌉ = (N+B-1)/B` batches whose per-leaf lengths sum to exactly `N`,
and with `cutoff = True` exactly `⌊N/B⌋` batches, every leaf of length
exactly `B`. -/
theorem C3_batchify_single_epoch_counts (R : RandLib) (data : List (List ℚ))
    (N B fuel : ℕ) (sh : Bool) (s : R.S) (hN : 0 < N) (hB : 0 < B)
    (hne : data ≠ []) (hleaves : ∀ x ∈ data, x.length = N)
    (hfuel : N ≤ fuel * B) :
    (batchify R data B 1 sh false fuel s).length = (N + B - 1) / B ∧
    (∀ j, j < data.length →
      ((batchify R data B 1 sh false fuel s).map
          (fun batch => (batch.getD j []).length)).sum = N) ∧
    (batchify R data B 1 sh true fuel s).length = N / B ∧
    (∀ batch ∈ batchify R data B 1 sh true fuel s, ∀ leaf ∈ batch,
      leaf.length = B) := by
  have hhead : (data.headD []).length = N := by
    cases data with
    | nil => exact absurd rfl hne
    | cons x xs => exact hleaves x (by simp)
  obtain ⟨k1, k2, k3⟩ := batchifyIdx_oneEpoch R N B sh hB fuel 0
    (getPerm R sh s N).1 (getPerm R sh s N).2 (getPerm_length R sh s N)
    (Nat.zero_le N) (by simpa using hfuel)
  simp only [batchify, hhead]
  refine ⟨?_, ?_, ?_, ?_⟩
  · rw [List.length_map]
    simpa using k2
  · intro j hj
    rw [List.map_map]
    have hfun : ((fun batch => ((batch.getD j ([] : List ℚ)).length)) ∘
        (fun idx => data.map (fun x => gather x idx)))
          = fun idx : List ℕ => idx.length := by
      funext idx
      exact length_getD_map_gather data idx j hj
    rw [hfun]
    simpa using k1
  · rw [List.length_map]
    have := congrArg List.length k3
    simpa using this
  · intro batch hb leaf hl
    obtain ⟨idx, hidx, rfl⟩ := List.mem_map.1 hb
    obtain ⟨x, hx, rfl⟩ := List.mem_map.1 hl
    have hmem : idx.length ∈
        (batchifyIdx R N B 1 sh true fuel (getPerm R sh s N).1 0 0
          (getPerm R sh s N).2).map List.length :=
      List.mem_map_of_mem List.length hidx
    rw [k3] at hmem
    have := List.eq_of_mem_replicate hmem
    simpa [gather] using this

/-- C3 witness: five samples in one leaf, batch size 2, one epoch over a
shuffled permutation: 3 batches summing to 5 without cutoff, 2 full batches
of size 2 with cutoff. -/
theorem C3_batchify_witness :
    (batchify natRand [[1, 2, 3, 4, 5]] 2 1 true false 5 (0 : ℕ)).length
        = (5 + 2 - 1) / 2 ∧
    (∀ j, j < ([[(1 : ℚ), 2, 3, 4, 5]] : List (List ℚ)).length →
      ((batchify natRand [[1, 2, 3, 4, 5]] 2 1 true false 5 (0 : ℕ)).map
          (fun batch => (batch.getD j []).length)).sum = 5) ∧
    (batchify natRand [[1, 2, 3, 4, 5]] 2 1 true true 5 (0 : ℕ)).length = 5 / 2 ∧
    (∀ batch ∈ batchify natRand [[1, 2, 3, 4, 5]] 2 1 true true 5 (0 : ℕ),
      ∀ leaf ∈ batch, leaf.length = 2) :=
  C3_batchify_single_epoch_counts natRand [[1, 2, 3, 4, 5]] 5 2 5 true 0
    (by decide) (by decide) (by decide) (by decide) (by decide)

/-- C4 counterexample: with a single sample (`N = 1`), batch size 3 and two
epochs, the batch that straddles the epoch boundary has leaf length 2, not the
claimed `batch_size = 3`: `perm[:missing]` is clipped at the `N` available
indices. -/
theorem C4_counterexample_straddle_short :
    ((batchify natRand [[(5 : ℚ)]] 3 2 false false 10 (0 : ℕ)).map
        (fun b => b.map List.length)) = [[2]] ∧ (2 : ℕ) ≠ 3 := by
  exact ⟨by decide, by decide⟩

/-- C4 amended: when a `batchify` batch overflows the current permutation and
more epochs remain, the yielded straddling batch is the old permutation's tail
concatenated with the new permutation's head, of leaf length
`(N - pos) + min (pos + batch_size - N) N`; this equals `batch_size` exactly
when `pos + batch_size ≤ 2N` — for larger requests the new permutation's head
is clipped at `N` and the straddling batch is short. -/
theorem C4_straddle_batch_length (R : RandLib) (N B : ℕ) (nE : ℤ)
    (sh cutoff : Bool) (fuel pos epoch : ℕ) (perm : List ℕ) (s : R.S)
    (hlen : perm.length = N) (hpos : pos ≤ N) (hover : N < pos + B)
    (hlast : ((epoch : ℤ)) ≠ nE - 1)
    (hguard : nE ≤ 0 ∨ (epoch : ℤ) < nE - 1 ∨ pos < N) :
    batchifyIdx R N B nE sh cutoff (fuel + 1) perm pos epoch s
      = (perm.drop pos ++ (getPerm R sh s N).1.take (pos + B - N)) ::
        batchifyIdx R N B nE sh cutoff fuel (getPerm R sh s N).1 (pos + B - N)
          (epoch + 1) (getPerm R sh s N).2 ∧
    (perm.drop pos ++ (getPerm R sh s N).1.take (pos + B - N)).length
      = (N - pos) + min (pos + B - N) N ∧
    ((perm.drop pos ++ (getPerm R sh s N).1.take (pos + B - N)).length = B
      ↔ pos + B ≤ 2 * N) := by
  refine ⟨?_, ?_, ?_⟩
  · simp only [batchifyIdx, if_pos hguard, if_pos hover, if_neg hlast]
  · simp [hlen, getPerm_length]
  · simp only [List.length_append, List.length_drop, List.length_take,
      getPerm_length, hlen]
    omega

/-- C4 amended witness: `N = 2`, cursor at 1, batch size 3 (so
`pos + B = 2N`): the straddling batch has length exactly 3. -/
theorem C4_straddle_witness :
    batchifyIdx natRand 2 3 2 false false (5 + 1) [1, 0] 1 0 (0 : ℕ)
      = (([1, 0] : List ℕ).drop 1 ++
          (getPerm natRand false (0 : ℕ) 2).1.take (1 + 3 - 2)) ::
        batchifyIdx natRand 2 3 2 false false 5 (getPerm natRand false (0 : ℕ) 2).1
          (1 + 3 - 2) (0 + 1) (getPerm natRand false (0 : ℕ) 2).2 ∧
    (([1, 0] : List ℕ).drop 1 ++
        (getPerm natRand false (0 : ℕ) 2).1.take (1 + 3 - 2)).length
      = (2 - 1) + min (1 + 3 - 2) 2 ∧
    ((([1, 0] : List ℕ).drop 1 ++
        (getPerm natRand false (0 : ℕ) 2).1.take (1 + 3 - 2)).length = 3
      ↔ 1 + 3 ≤ 2 * 2) :=
  C4_straddle_batch_length natRand 2 3 2 false false 5 1 0 [1, 0] 0
    (by decide) (by decide) (by decide) (by decide) (by decide)

/-- C1: `minibatch(batch_size)` raises exactly when
`batch_size > n_train_samples`.  Otherwise, without cursor overflow it slices
`[minibatch_idx, minibatch_idx + batch_size)` of the current permutation,
gathers every training leaf by that slice, records it as
`minibatch_indicies`, and advances the cursor; on overflow it first performs
`next_epoch()` — drawing a fresh permutation of `[0, n_train_samples)` and
resetting the cursor to 0, discarding the old permutation's remainder — and
serves slice `[0, batch_size)` of the fresh permutation. -/
theorem C1_minibatch_spec (R : RandLib) (b : ℕ) (d : Dataset) (s : R.S) :
    ((∃ e, Dataset.minibatch R b d s = .error e) ↔ d.nTrainSamples < b) ∧
    (b ≤ d.nTrainSamples → d.minibatchIdx + b ≤ d.nTrainSamples →
      Dataset.minibatch R b d s = .ok
        ((d.trainInputs.map
            (fun x => gather x ((d.trainPerm.drop d.minibatchIdx).take b)),
          d.trainTargets.map
            (fun t => gather t ((d.trainPerm.drop d.minibatchIdx).take b))),
         { d with
            minibatchIndicies := some ((d.trainPerm.drop d.minibatchIdx).take b),
            minibatchIdx := d.minibatchIdx + b }, s)) ∧
    (b ≤ d.nTrainSamples → d.nTrainSamples < d.minibatchIdx + b →
      (R.permFn s d.nTrainSamples).1.Perm (List.range d.nTrainSamples) ∧
      Dataset.minibatch R b d s = .ok
        ((d.trainInputs.map
            (fun x => gather x ((R.permFn s d.nTrainSamples).1.take b)),
          d.trainTargets.map
            (fun t => gather t ((R.permFn s d.nTrainSamples).1.take b))),
         { d with
            trainPerm := (R.permFn s d.nTrainSamples).1,
            minibatchIndicies := some ((R.permFn s d.nTrainSamples).1.take b),
            minibatchIdx := 0 + b },
         (R.permFn s d.nTrainSamples).2)) := by
  by_cases h1 : d.nTrainSamples < b
  · have key : Dataset.minibatch R b d s =
        .error "Batch size must be smaller than or equal to total number of samples" := by
      simp only [Dataset.minibatch, if_pos h1]
    exact ⟨⟨fun _ => h1, fun _ => ⟨_, key⟩⟩,
      fun hb _ => absurd hb (by omega),
      fun hb _ => absurd hb (by omega)⟩
  · by_cases h2 : d.nTrainSamples < d.minibatchIdx + b
    · have key : Dataset.minibatch R b d s = .ok
          ((d.trainInputs.map
              (fun x => gather x ((R.permFn s d.nTrainSamples).1.take b)),
            d.trainTargets.map
              (fun t => gather t ((R.permFn s d.nTrainSamples).1.take b))),
           { d with
              trainPerm := (R.permFn s d.nTrainSamples).1,
              minibatchIndicies := some ((R.permFn s d.nTrainSamples).1.take b),
              minibatchIdx := 0 + b },
           (R.permFn s d.nTrainSamples).2) := by
        simp only [Dataset.minibatch, if_neg h1, if_pos h2, Dataset.nextEpoch]
        simp [Dataset.nTrainSamples, seedState]
      refine ⟨?_, fun _ hno => absurd hno (by omega),
        fun hb hov => ⟨R.perm_spec s _, key⟩⟩
      rw [key]
      exact ⟨fun ⟨e, he⟩ => Except.noConfusion he, fun hlt => absurd hlt h1⟩
    · have key : Dataset.minibatch R b d s = .ok
          ((d.trainInputs.map
              (fun x => gather x ((d.trainPerm.drop d.minibatchIdx).take b)),
            d.trainTargets.map
              (fun t => gather t ((d.trainPerm.drop d.minibatchIdx).take b))),
           { d with
              minibatchIndicies := some ((d.trainPerm.drop d.minibatchIdx).take b),
              minibatchIdx := d.minibatchIdx + b }, s) := by
        simp only [Dataset.minibatch, if_neg h1, if_neg h2]
      refine ⟨?_, fun _ _ => key, fun hb hov => absurd hov h2⟩
      rw [key]
      exact ⟨fun ⟨e, he⟩ => Except.noConfusion he, fun hlt => absurd hlt h1⟩

/-- C1 witness on a concrete dataset (4 samples, cursor 0, batch 3 twice):
all three cases of the minibatch specification evaluated concretely. -/
theorem C1_minibatch_witness :
    (Dataset.minibatch natRand 3 dsEx (0 : ℕ) = .ok
        ((dsEx.trainInputs.map
            (fun x => gather x ((dsEx.trainPerm.drop dsEx.minibatchIdx).take 3)),
          dsEx.trainTargets.map
            (fun t => gather t ((dsEx.trainPerm.drop dsEx.minibatchIdx).take 3))),
         { dsEx with
            minibatchIndicies := some ((dsEx.trainPerm.drop dsEx.minibatchIdx).take 3),
            minibatchIdx := dsEx.minibatchIdx + 3 }, (0 : ℕ))) ∧
    ((∃ e, Dataset.minibatch natRand 5 dsEx (0 : ℕ) = .error e) ↔
      dsEx.nTrainSamples < 5) := by
  constructor
  · exact (C1_minibatch_spec natRand 3 dsEx 0).2.1 (by decide) (by decide)
  · exact (C1_minibatch_spec natRand 5 dsEx 0).1

/-- Repeated minibatch calls that stay inside the current epoch slice the
current permutation into consecutive chunks, without triggering a rollover. -/
theorem minibatchRun_no_rollover (R : RandLib) (b : ℕ) :
    ∀ (k : ℕ) (d : Dataset) (s : R.S),
      b ≤ d.nTrainSamples → d.minibatchIdx + k * b ≤ d.nTrainSamples →
      (minibatchRun R b k d s).1
        = (List.range k).map
            (fun i => (d.trainPerm.drop (d.minibatchIdx + i * b)).take b) := by
  intro k
  induction k with
  | zero => intro d s hb hk; rfl
  | succ k ih =>
    intro d s hb hk
    have hmul : (k + 1) * b = k * b + b := Nat.succ_mul k b
    have h1 : ¬ d.nTrainSamples < b := by omega
    have h2 : ¬ d.nTrainSamples < d.minibatchIdx + b := by omega
    have hcall : Dataset.minibatch R b d s = .ok
        ((d.trainInputs.map
            (fun x => gather x ((d.trainPerm.drop d.minibatchIdx).take b)),
          d.trainTargets.map
            (fun t => gather t ((d.trainPerm.drop d.minibatchIdx).take b))),
         { d with
            minibatchIndicies := some ((d.trainPerm.drop d.minibatchIdx).take b),
            minibatchIdx := d.minibatchIdx + b }, s) := by
      simp only [Dataset.minibatch, if_neg h1, if_neg h2]
    have ihres := ih
      { d with
        minibatchIndicies := some ((d.trainPerm.drop d.minibatchIdx).take b),
        minibatchIdx := d.minibatchIdx + b } s hb (by
          show d.minibatchIdx + b + k * b ≤ d.nTrainSamples
          omega)
    simp only [minibatchRun, hcall]
    rw [ihres, List.range_succ_eq_map, List.map_cons, List.map_map]
    congr 1
    · simp
    · refine List.map_congr_left ?_
      intro i _
      show (d.trainPerm.drop (d.minibatchIdx + b + i * b)).take b
        = (d.trainPerm.drop (d.minibatchIdx + Nat.succ i * b)).take b
      congr 2
      have := Nat.succ_mul i b
      omega

/-- The concatenation of the consecutive permutation chunks equals the
corresponding contiguous segment of the permutation. -/
theorem flatten_chunks (b : ℕ) :
    ∀ (k start : ℕ) (perm : List ℕ),
      ((List.range k).map (fun i => (perm.drop (start + i * b)).take b)).flatten
        = (perm.drop start).take (k * b) := by
  intro k
  induction k with
  | zero => intro start perm; simp
  | succ k ih =>
    intro start perm
    rw [List.range_succ_eq_map, List.map_cons, List.flatten_cons, List.map_map]
    have hrw : ((fun i => (perm.drop (start + i * b)).take b) ∘ Nat.succ)
        = fun i => (perm.drop (start + b + i * b)).take b := by
      funext i
      show (perm.drop (start + Nat.succ i * b)).take b
        = (perm.drop (start + b + i * b)).take b
      congr 2
      have := Nat.succ_mul i b
      omega
    rw [hrw, ih (start + b) perm]
    have hmul : (k + 1) * b = b + k * b := by ring
    rw [hmul, List.take_add, List.drop_drop, Nat.add_comm start b]
    simp

/-- C9: when `b ≥ 1` divides `n_train_samples` evenly and the dataset sits at
the start of a fresh epoch, the `n_train_samples / b` consecutive
`minibatch(b)` calls return pairwise disjoint index slices whose union is a
permutation of `[0, n_train_samples)` — every training index is visited
exactly once in the epoch. -/
theorem C9_epoch_partition (R : RandLib) (b : ℕ) (d : Dataset) (s : R.S)
    (hb : 0 < b) (hdvd : b ∣ d.nTrainSamples) (hidx : d.minibatchIdx = 0)
    (hperm : d.trainPerm.Perm (List.range d.nTrainSamples)) :
    (minibatchRun R b (d.nTrainSamples / b) d s).1.length = d.nTrainSamples / b ∧
    (minibatchRun R b (d.nTrainSamples / b) d s).1.flatten.Perm
      (List.range d.nTrainSamples) ∧
    List.Pairwise List.Disjoint (minibatchRun R b (d.nTrainSamples / b) d s).1 := by
  by_cases h0 : d.nTrainSamples = 0
  · have hk : d.nTrainSamples / b = 0 := by rw [h0]; exact Nat.zero_div b
    rw [hk, h0]
    exact ⟨rfl, by simp [minibatchRun], by simp [minibatchRun]⟩
  · have hble : b ≤ d.nTrainSamples := Nat.le_of_dvd (by omega) hdvd
    have hkb : d.nTrainSamples / b * b = d.nTrainSamples := Nat.div_mul_cancel hdvd
    have hrun := minibatchRun_no_rollover R b (d.nTrainSamples / b) d s hble
      (by omega)
    have hlenperm : d.trainPerm.length = d.nTrainSamples := by
      rw [hperm.length_eq, List.length_range]
    have hflat : (minibatchRun R b (d.nTrainSamples / b) d s).1.flatten = d.trainPerm := by
      rw [hrun, hidx]
      have := flatten_chunks b (d.nTrainSamples / b) 0 d.trainPerm
      simp only [Nat.zero_add] at this ⊢
      rw [this, List.drop_zero, hkb, ← hlenperm, List.take_length]
    refine ⟨?_, ?_, ?_⟩
    · rw [hrun, List.length_map, List.length_range]
    · rw [hflat]; exact hperm
    · have hnodup : (minibatchRun R b (d.nTrainSamples / b) d s).1.flatten.Nodup := by
        rw [hflat]
        exact (hperm.nodup_iff).2 (List.nodup_range _)
      exact (List.nodup_flatten.1 hnodup).2

/-- C9 witness: 4 training samples, batch size 2, permutation `[2,0,3,1]`:
the two calls of one epoch partition `[0,4)`. -/
theorem C9_epoch_partition_witness :
    (minibatchRun natRand 2 (dsEx.nTrainSamples / 2) dsEx (0 : ℕ)).1.length
        = dsEx.nTrainSamples / 2 ∧
    (minibatchRun natRand 2 (dsEx.nTrainSamples / 2) dsEx (0 : ℕ)).1.flatten.Perm
      (List.range dsEx.nTrainSamples) ∧
    List.Pairwise List.Disjoint
      (minibatchRun natRand 2 (dsEx.nTrainSamples / 2) dsEx (0 : ℕ)).1 :=
  C9_epoch_partition natRand 2 dsEx 0 (by decide) (by decide) (by decide)
    (by decide)

theorem pyRound_le_of_le (q : ℚ) (n : ℤ) (h : q ≤ (n : ℚ)) : pyRound q ≤ n := by
  have hf : ⌊q⌋ ≤ n := by
    have h2 := Int.floor_le_floor h
    simpa using h2
  have hkey : (1 : ℚ)/2 ≤ q - (⌊q⌋ : ℚ) → ⌊q⌋ + 1 ≤ n := by
    intro hge
    have h1 : ((⌊q⌋ : ℚ)) + 1/2 ≤ q := by linarith
    have h2 : ((⌊q⌋ : ℚ)) < (n : ℚ) := by linarith
    have h3 : ⌊q⌋ < n := by exact_mod_cast h2
    omega
  simp only [pyRound]
  split_ifs with h1 h2 h3
  · exact hf
  · exact hkey (le_of_lt h2)
  · exact hf
  · exact hkey (not_lt.1 h1)

theorem pyRound_nonneg (q : ℚ) (h : 0 ≤ q) : 0 ≤ pyRound q := by
  have hf : 0 ≤ ⌊q⌋ := Int.floor_nonneg.2 h
  simp only [pyRound]
  split_ifs <;> omega

theorem sortNat_sorted (l : List ℕ) : List.Sorted (· ≤ ·) (sortNat l) :=
  List.sorted_insertionSort _ l

theorem sortNat_perm (l : List ℕ) : (sortNat l).Perm l :=
  List.perm_insertionSort _ l

/-- The automatic-split branch of the constructor: when the batch checks
pass, no explicit validation set is supplied and `train_frac > 0`, the
constructor seeds (for truthy seeds), draws one permutation, splits it at
`round(n_inputs * train_frac)` and builds the dataset from the two sorted
index lists. -/
theorem mkDataset_split (R : RandLib) (sqrtA : ℚ → ℚ)
    (inputs targets : List (List ℚ)) (tI tT vT : Option (List (List ℚ)))
    (seed : Option ℕ) (frac : ℚ) (s : R.S)
    (hne : inputs.isEmpty = false)
    (hbatch : hasSameBatch (inputs ++ targets) = true)
    (htest : checkOptionalSet inputs.length targets.length tI tT "test"
      = .ok ())
    (hfrac : 0 < frac) :
    mkDataset R sqrtA inputs targets tI tT none vT seed frac s =
      .ok (finishInit R sqrtA inputs.length targets.length
        (inputs.map (fun x => gather x
          (sortNat ((R.permFn (seedState R seed s) (inputs.headD []).length).1.take
            (pyRound (((inputs.headD []).length : ℚ) * frac)).toNat))))
        (targets.map (fun t => gather t
          (sortNat ((R.permFn (seedState R seed s) (inputs.headD []).length).1.take
            (pyRound (((inputs.headD []).length : ℚ) * frac)).toNat))))
        (some (inputs.map (fun x => gather x
          (sortNat ((R.permFn (seedState R seed s) (inputs.headD []).length).1.drop
            (pyRound (((inputs.headD []).length : ℚ) * frac)).toNat)))))
        (some (targets.map (fun t => gather t
          (sortNat ((R.permFn (seedState R seed s) (inputs.headD []).length).1.drop
            (pyRound (((inputs.headD []).length : ℚ) * frac)).toNat)))))
        tI tT
        (some (sortNat ((R.permFn (seedState R seed s) (inputs.headD []).length).1.take
          (pyRound (((inputs.headD []).length : ℚ) * frac)).toNat)))
        (some (sortNat ((R.permFn (seedState R seed s) (inputs.headD []).length).1.drop
          (pyRound (((inputs.headD []).length : ℚ) * frac)).toNat)))
        (R.permFn (seedState R seed s) (inputs.headD []).length).2) := by
  have hval : checkOptionalSet inputs.length targets.length none vT "validation"
      = Except.ok () := rfl
  simp only [mkDataset, hne, hbatch, htest, hval, Bool.false_eq_true, if_false,
    not_true, Option.isNone_none, eq_self_iff_true, true_and]
  rw [if_pos hfrac]

/-- The non-splitting branch of the constructor: with an explicit validation
set (or `train_frac ≤ 0`), `inputs`/`targets` are adopted as the training
set unchanged. -/
theorem mkDataset_noSplit (R : RandLib) (sqrtA : ℚ → ℚ)
    (inputs targets : List (List ℚ))
    (tI tT vI vT : Option (List (List ℚ)))
    (seed : Option ℕ) (frac : ℚ) (s : R.S)
    (hne : inputs.isEmpty = false)
    (hbatch : hasSameBatch (inputs ++ targets) = true)
    (htest : checkOptionalSet inputs.length targets.length tI tT "test"
      = .ok ())
    (hval : checkOptionalSet inputs.length targets.length vI vT "validation"
      = .ok ())
    (hcond : ¬ (vI.isNone ∧ 0 < frac)) :
    mkDataset R sqrtA inputs targets tI tT vI vT seed frac s =
      .ok (finishInit R sqrtA inputs.length targets.length
        inputs targets vI vT tI tT none none s) := by
  simp only [mkDataset, hne, hbatch, htest, hval, Bool.false_eq_true, if_false,
    not_true]
  rw [if_neg hcond]

/-- C2: a valid construction performing the automatic split (no explicit
validation set, `0 < train_frac ≤ 1`) produces `train_idx` of length
`round(n_inputs * train_frac)`, both index lists sorted, disjoint, and
together a partition of `[0, n_inputs)`; train and validation batch lengths
sum to `n_inputs`. -/
theorem C2_split_partition (R : RandLib) (sqrtA : ℚ → ℚ)
    (inputs targets : List (List ℚ)) (tI tT vT : Option (List (List ℚ)))
    (seed : Option ℕ) (frac : ℚ) (s : R.S) (d : Dataset) (s1 : R.S) (n : ℕ)
    (hn : (inputs.headD []).length = n)
    (hfrac0 : 0 < frac) (hfrac1 : frac ≤ 1)
    (hok : mkDataset R sqrtA inputs targets tI tT none vT seed frac s
      = .ok (d, s1)) :
    ∃ tIdx vIdx, d.trainIdx = some tIdx ∧ d.validationIdx = some vIdx ∧
      tIdx.length = (pyRound ((n : ℚ) * frac)).toNat ∧
      List.Sorted (· ≤ ·) tIdx ∧ List.Sorted (· ≤ ·) vIdx ∧
      tIdx.Disjoint vIdx ∧ (tIdx ++ vIdx).Perm (List.range n) ∧
      tIdx.length + vIdx.length = n ∧
      d.nTrainSamples + d.nValidationSamples = n := by
  have hne : inputs.isEmpty = false := by
    cases h : inputs.isEmpty
    · rfl
    · simp [mkDataset, h] at hok
  have hbatch : hasSameBatch (inputs ++ targets) = true := by
    cases h : hasSameBatch (inputs ++ targets)
    · simp [mkDataset, hne, h] at hok
    · rfl
  have htest : checkOptionalSet inputs.length targets.length tI tT "test"
      = .ok () := by
    cases hc : checkOptionalSet inputs.length targets.length tI tT "test" with
    | ok u => cases u; rfl
    | error e => simp [mkDataset, hne, hbatch, hc] at hok
  rw [mkDataset_split R sqrtA inputs targets tI tT vT seed frac s hne hbatch
    htest hfrac0, hn] at hok
  injection hok with hpair
  have hd : d = (finishInit R sqrtA inputs.length targets.length
      (inputs.map (fun x => gather x
        (sortNat ((R.permFn (seedState R seed s) n).1.take
          (pyRound ((n : ℚ) * frac)).toNat))))
      (targets.map (fun t => gather t
        (sortNat ((R.permFn (seedState R seed s) n).1.take
          (pyRound ((n : ℚ) * frac)).toNat))))
      (some (inputs.map (fun x => gather x
        (sortNat ((R.permFn (seedState R seed s) n).1.drop
          (pyRound ((n : ℚ) * frac)).toNat)))))
      (some (targets.map (fun t => gather t
        (sortNat ((R.permFn (seedState R seed s) n).1.drop
          (pyRound ((n : ℚ) * frac)).toNat)))))
      tI tT
      (some (sortNat ((R.permFn (seedState R seed s) n).1.take
        (pyRound ((n : ℚ) * frac)).toNat)))
      (some (sortNat ((R.permFn (seedState R seed s) n).1.drop
        (pyRound ((n : ℚ) * frac)).toNat)))
      (R.permFn (seedState R seed s) n).2).1 := by
    rw [hpair]
  have hP : (R.permFn (seedState R seed s) n).1.Perm (List.range n) :=
    R.perm_spec _ n
  have hPlen : (R.permFn (seedState R seed s) n).1.length = n := by
    rw [hP.length_eq, List.length_range]
  have hPnodup : (R.permFn (seedState R seed s) n).1.Nodup :=
    (hP.nodup_iff).2 (List.nodup_range n)
  have hk : (pyRound ((n : ℚ) * frac)).toNat ≤ n := by
    have hq : ((n : ℚ)) * frac ≤ (n : ℚ) :=
      mul_le_of_le_one_right (by positivity) hfrac1
    have hr : pyRound ((n : ℚ) * frac) ≤ (n : ℤ) :=
      pyRound_le_of_le _ n (by push_cast; exact hq)
    exact Int.toNat_le.2 hr
  refine ⟨sortNat ((R.permFn (seedState R seed s) n).1.take
      (pyRound ((n : ℚ) * frac)).toNat),
    sortNat ((R.permFn (seedState R seed s) n).1.drop
      (pyRound ((n : ℚ) * frac)).toNat), ?_, ?_, ?_, ?_, ?_, ?_, ?_, ?_, ?_⟩
  · rw [hd]; rfl
  · rw [hd]; rfl
  · rw [(sortNat_perm _).length_eq, List.length_take, hPlen]
    exact Nat.min_eq_left hk
  · exact sortNat_sorted _
  · exact sortNat_sorted _
  · have hdis0 : ((R.permFn (seedState R seed s) n).1.take
        (pyRound ((n : ℚ) * frac)).toNat).Disjoint
        ((R.permFn (seedState R seed s) n).1.drop
          (pyRound ((n : ℚ) * frac)).toNat) := by
      have hnodup2 : (((R.permFn (seedState R seed s) n).1.take
          (pyRound ((n : ℚ) * frac)).toNat) ++
          ((R.permFn (seedState R seed s) n).1.drop
            (pyRound ((n : ℚ) * frac)).toNat)).Nodup := by
        rw [List.take_append_drop]
        exact hPnodup
      exact (List.nodup_append.1 hnodup2).2.2
    exact ((sortNat_perm _).disjoint_left).2
      (((sortNat_perm _).disjoint_right).2 hdis0)
  · refine ((sortNat_perm _).append (sortNat_perm _)).trans ?_
    rw [List.take_append_drop]
    exact hP
  · have happ : ((sortNat ((R.permFn (seedState R seed s) n).1.take
        (pyRound ((n : ℚ) * frac)).toNat)) ++
        (sortNat ((R.permFn (seedState R seed s) n).1.drop
          (pyRound ((n : ℚ) * frac)).toNat))).Perm (List.range n) := by
      refine ((sortNat_perm _).append (sortNat_perm _)).trans ?_
      rw [List.take_append_drop]
      exact hP
    have hl := happ.length_eq
    simpa using hl
  · cases inputs with
    | nil => simp at hne
    | cons x xs =>
      have ht : d.nTrainSamples
          = (sortNat ((R.permFn (seedState R seed s) n).1.take
            (pyRound ((n : ℚ) * frac)).toNat)).length := by
        rw [hd]
        simp [Dataset.nTrainSamples, finishInit, Dataset.updateStats,
          Dataset.nextEpoch, gather]
      have hv : d.nValidationSamples
          = (sortNat ((R.permFn (seedState R seed s) n).1.drop
            (pyRound ((n : ℚ) * frac)).toNat)).length := by
        rw [hd]
        simp [Dataset.nValidationSamples, finishInit, Dataset.updateStats,
          Dataset.nextEpoch, gather]
      rw [ht, hv, (sortNat_perm _).length_eq, (sortNat_perm _).length_eq,
        List.length_take, List.length_drop, hPlen]
      omega

/-- C2 witness: 5 rows, `train_frac = 4/5`: `round(4) = 4` training indices
and 1 validation index partitioning `[0, 5)`. -/
theorem C2_split_partition_witness :
    ∃ tIdx vIdx,
      (okDataset (mkDataset natRand id [[1, 2, 3, 4, 5]] [[1, 2, 3, 4, 5]]
        none none none none none (4/5) (0 : ℕ))).trainIdx = some tIdx ∧
      (okDataset (mkDataset natRand id [[1, 2, 3, 4, 5]] [[1, 2, 3, 4, 5]]
        none none none none none (4/5) (0 : ℕ))).validationIdx = some vIdx ∧
      tIdx.length = (pyRound ((5 : ℚ) * (4/5))).toNat ∧
      List.Sorted (· ≤ ·) tIdx ∧ List.Sorted (· ≤ ·) vIdx ∧
      tIdx.Disjoint vIdx ∧ (tIdx ++ vIdx).Perm (List.range 5) ∧
      tIdx.length + vIdx.length = 5 ∧
      (okDataset (mkDataset natRand id [[1, 2, 3, 4, 5]] [[1, 2, 3, 4, 5]]
        none none none none none (4/5) (0 : ℕ))).nTrainSamples +
      (okDataset (mkDataset natRand id [[1, 2, 3, 4, 5]] [[1, 2, 3, 4, 5]]
        none none none none none (4/5) (0 : ℕ))).nValidationSamples = 5 :=
  by
  have hkey := mkDataset_split natRand id [[1, 2, 3, 4, 5]] [[1, 2, 3, 4, 5]]
    none none none none (4/5) (0 : ℕ) rfl rfl rfl (by norm_num)
  refine C2_split_partition natRand id [[1, 2, 3, 4, 5]] [[1, 2, 3, 4, 5]]
    none none none none (4/5) 0
    (okDataset (mkDataset natRand id [[1, 2, 3, 4, 5]] [[1, 2, 3, 4, 5]]
      none none none none none (4/5) (0 : ℕ)))
    (okState 0 (mkDataset natRand id [[1, 2, 3, 4, 5]] [[1, 2, 3, 4, 5]]
      none none none none none (4/5) (0 : ℕ))) 5
    rfl (by norm_num) (by norm_num) ?_
  rw [hkey]
  rfl

/-- C6: seeding goes through Python truthiness (`if seed:`), so a provided
seed of `0` is silently ignored — construction with `seed = 0` behaves exactly
like construction with no seed at all, and two such constructions from
different ambient random states draw different splits, contradicting the
claimed determinism for every provided seed (and the constructor docstring
"if not None").  Any nonzero seed is deterministic, as the third conjunct
shows. -/
theorem C6_seed_truthiness :
    (∀ (R : RandLib) (sqrtA : ℚ → ℚ) (inputs targets : List (List ℚ))
      (tI tT vT : Option (List (List ℚ))) (frac : ℚ) (s : R.S),
      mkDataset R sqrtA inputs targets tI tT none vT (some 0) frac s
        = mkDataset R sqrtA inputs targets tI tT none vT none frac s) ∧
    ((okDataset (mkDataset natRand id [[1, 2]] [[1, 2]] none none none none
        (some 0) (1/2) (0 : ℕ))).trainIdx
      ≠ (okDataset (mkDataset natRand id [[1, 2]] [[1, 2]] none none none none
        (some 0) (1/2) (5 : ℕ))).trainIdx) ∧
    (∀ (R : RandLib) (sqrtA : ℚ → ℚ) (inputs targets : List (List ℚ))
      (tI tT vT : Option (List (List ℚ))) (k : ℕ) (frac : ℚ) (s1 s2 : R.S),
      inputs.isEmpty = false → hasSameBatch (inputs ++ targets) = true →
      checkOptionalSet inputs.length targets.length tI tT "test" = .ok () →
      0 < frac →
      mkDataset R sqrtA inputs targets tI tT none vT (some (k + 1)) frac s1
        = mkDataset R sqrtA inputs targets tI tT none vT (some (k + 1)) frac s2) := by
  refine ⟨?_, ?_, ?_⟩
  · intro R sqrtA inputs targets tI tT vT frac s
    rfl
  · have h1 := mkDataset_split natRand id [[(1 : ℚ), 2]] [[(1 : ℚ), 2]]
      none none none (some 0) (1/2) (0 : ℕ) rfl rfl rfl (by norm_num)
    have h2 := mkDataset_split natRand id [[(1 : ℚ), 2]] [[(1 : ℚ), 2]]
      none none none (some 0) (1/2) (5 : ℕ) rfl rfl rfl (by norm_num)
    rw [h1, h2]
    simp only [okDataset]
    have hpy : (pyRound (((([[(1 : ℚ), 2]]).headD []).length : ℚ) * (1/2))).toNat
        = 1 := by
      norm_num [pyRound]
    rw [hpy]
    decide
  · intro R sqrtA inputs targets tI tT vT k frac s1 s2 hne hbatch htest hfrac
    have hs : ∀ s0 : R.S, seedState R (some (k + 1)) s0 = R.seedFn (k + 1) := by
      intro s0
      simp [seedState]
    rw [mkDataset_split R sqrtA inputs targets tI tT vT (some (k + 1)) frac s1
          hne hbatch htest hfrac,
        mkDataset_split R sqrtA inputs targets tI tT vT (some (k + 1)) frac s2
          hne hbatch htest hfrac, hs s1, hs s2]

/-- C6 witness: two constructions with the nonzero seed 7 from different
ambient random states produce identical results. -/
theorem C6_seed_truthiness_witness :
    mkDataset natRand id [[1], [2]] [[1], [2]] none none none none
        (some (6 + 1)) (1/2) (0 : ℕ)
      = mkDataset natRand id [[1], [2]] [[1], [2]] none none none none
        (some (6 + 1)) (1/2) (5 : ℕ) :=
  C6_seed_truthiness.2.2 natRand id [[1], [2]] [[1], [2]] none none none 6
    (1/2) 0 5 (by decide) (by decide) (by rfl) (by norm_num)

/-- C7 counterexample: an original built with `train_frac = 0` has no
validation set; `copy()` then calls the constructor with its default
`train_frac = 0.8`, which re-splits the training data, so the copy's training
contents differ from the original's. -/
theorem C7_counterexample_copy_resplits :
    exceptIsOk (Dataset.copy natRand id
      (okDataset (mkDataset natRand id [[1, 2, 3, 4, 5]] [[1, 2, 3, 4, 5]]
        none none none none none 0 (0 : ℕ)))
      (okState 0 (mkDataset natRand id [[1, 2, 3, 4, 5]] [[1, 2, 3, 4, 5]]
        none none none none none 0 (0 : ℕ)))) = true ∧
    (okDataset (Dataset.copy natRand id
      (okDataset (mkDataset natRand id [[1, 2, 3, 4, 5]] [[1, 2, 3, 4, 5]]
        none none none none none 0 (0 : ℕ)))
      (okState 0 (mkDataset natRand id [[1, 2, 3, 4, 5]] [[1, 2, 3, 4, 5]]
        none none none none none 0 (0 : ℕ))))).trainInputs
      ≠ (okDataset (mkDataset natRand id [[1, 2, 3, 4, 5]] [[1, 2, 3, 4, 5]]
        none none none none none 0 (0 : ℕ))).trainInputs := by
  have h0 := mkDataset_noSplit natRand id [[(1 : ℚ), 2, 3, 4, 5]]
    [[(1 : ℚ), 2, 3, 4, 5]] none none none none none 0 (0 : ℕ)
    rfl rfl rfl rfl (by simp)
  have hcopy := mkDataset_split natRand id [[(1 : ℚ), 2, 3, 4, 5]]
    [[(1 : ℚ), 2, 3, 4, 5]] none none none none (4/5) (1 : ℕ)
    rfl rfl rfl (by norm_num)
  have hcopy2 : Dataset.copy natRand id
      (okDataset (mkDataset natRand id [[1, 2, 3, 4, 5]] [[1, 2, 3, 4, 5]]
        none none none none none 0 (0 : ℕ)))
      (okState 0 (mkDataset natRand id [[1, 2, 3, 4, 5]] [[1, 2, 3, 4, 5]]
        none none none none none 0 (0 : ℕ)))
      = mkDataset natRand id [[1, 2, 3, 4, 5]] [[1, 2, 3, 4, 5]]
        none none none none none (4/5) (1 : ℕ) := by
    rw [h0]
    rfl
  constructor
  · rw [hcopy2, hcopy]
    rfl
  · rw [hcopy2, hcopy, h0]
    simp only [okDataset]
    have hpy : (pyRound (((([[(1 : ℚ), 2, 3, 4, 5]]).headD []).length : ℚ)
        * (4/5))).toNat = 4 := by
      norm_num [pyRound]
      decide
    rw [hpy]
    decide

/-- C7 amended: when the original dataset has a validation set (so the
rebuild takes the non-splitting branch), `copy()` succeeds and the copy's
train, validation and test contents equal the original's, with freshly
recomputed statistics, a fresh epoch state (cursor 0, fresh permutation of
`[0, n_train_samples)`) and the identity normalizer. -/
theorem C7_copy_with_validation (R : RandLib) (sqrtA : ℚ → ℚ) (d : Dataset)
    (s : R.S) (vi vt : List (List ℚ))
    (hvi : d.validationInputs = some vi) (hvt : d.validationTargets = some vt)
    (hne : d.trainInputs.isEmpty = false)
    (hbatch : hasSameBatch (d.trainInputs ++ d.trainTargets) = true)
    (htest : checkOptionalSet d.trainInputs.length d.trainTargets.length
      d.testInputs d.testTargets "test" = .ok ())
    (hval : checkOptionalSet d.trainInputs.length d.trainTargets.length
      d.validationInputs d.validationTargets "validation" = .ok ()) :
    ∃ d2 s2, Dataset.copy R sqrtA d s = .ok (d2, s2) ∧
      d2.trainInputs = d.trainInputs ∧ d2.trainTargets = d.trainTargets ∧
      d2.validationInputs = d.validationInputs ∧
      d2.validationTargets = d.validationTargets ∧
      d2.testInputs = d.testInputs ∧ d2.testTargets = d.testTargets ∧
      d2.inputsMean = d.trainInputs.map listMean ∧
      d2.inputsStd = d.trainInputs.map (fun x => sqrtA (sampleVar x)) ∧
      d2.minibatchIdx = 0 ∧ d2.minibatchIndicies = none ∧
      d2.trainPerm.Perm (List.range d.nTrainSamples) ∧
      (∀ x, d2.normalizer x = x) := by
  have hcond : ¬ ((d.validationInputs).isNone ∧ 0 < (4/5 : ℚ)) := by
    rw [hvi]
    simp
  have hkey := mkDataset_noSplit R sqrtA d.trainInputs d.trainTargets
    d.testInputs d.testTargets d.validationInputs d.validationTargets none
    (4/5) s hne hbatch htest hval hcond
  refine ⟨_, _, hkey, rfl, rfl, rfl, rfl, rfl, rfl, rfl, rfl, rfl, rfl,
    R.perm_spec s _, fun x => rfl⟩

/-- C7 amended witness: copying a concrete dataset that has a validation
set preserves all its contents. -/
theorem C7_copy_with_validation_witness :
    ∃ d2 s2, Dataset.copy natRand id dsNorm (0 : ℕ) = .ok (d2, s2) ∧
      d2.trainInputs = dsNorm.trainInputs ∧
      d2.trainTargets = dsNorm.trainTargets ∧
      d2.validationInputs = dsNorm.validationInputs ∧
      d2.validationTargets = dsNorm.validationTargets ∧
      d2.testInputs = dsNorm.testInputs ∧ d2.testTargets = dsNorm.testTargets ∧
      d2.inputsMean = dsNorm.trainInputs.map listMean ∧
      d2.inputsStd = dsNorm.trainInputs.map (fun x => id (sampleVar x)) ∧
      d2.minibatchIdx = 0 ∧ d2.minibatchIndicies = none ∧
      d2.trainPerm.Perm (List.range dsNorm.nTrainSamples) ∧
      (∀ x, d2.normalizer x = x) :=
  C7_copy_with_validation natRand id dsNorm 0 [[4, 6, 8], [2, 2, 2]]
    [[1, 1, 1]] (by rfl) (by rfl) (by decide) (by decide) (by rfl) (by rfl)

theorem getD_map_of_lt {α β : Type} (f : α → β) (dflt : β) (d0 : α) :
    ∀ (l : List α) (i : ℕ), i < l.length →
      (l.map f).getD i dflt = f (l.getD i d0) := by
  intro l
  induction l with
  | nil => intro i hi; simp at hi
  | cons x xs ih =>
    intro i hi
    cases i with
    | zero => simp
    | succ i => simpa using ih i (by simpa using hi)

/-- The normalization comprehension picks leaf `i`'s data, mean, std and
control flag positionally. -/
theorem normalizeLeaves_getD :
    ∀ (ds : List (List ℚ)) (mus sgs : List ℚ) (cs : List Bool) (i : ℕ),
      i < ds.length → mus.length = ds.length → sgs.length = ds.length →
      cs.length = ds.length →
      (normalizeLeaves ds mus sgs cs).getD i []
        = if cs.getD i true then
            (ds.getD i []).map (fun v => (v - mus.getD i 0) / sgs.getD i 0)
          else ds.getD i [] := by
  intro ds
  induction ds with
  | nil => intro mus sgs cs i hi; simp at hi
  | cons x xs ih =>
    intro mus sgs cs i hi hmu hsg hcs
    cases mus with
    | nil => simp at hmu
    | cons mu mus =>
      cases sgs with
      | nil => simp at hsg
      | cons sg sgs =>
        cases cs with
        | nil => simp at hcs
        | cons cf cs =>
          cases i with
          | zero => simp [normalizeLeaves]
          | succ i =>
            simp only [normalizeLeaves, List.getD_cons_succ]
            exact ih mus sgs cs i (by simpa using hi) (by simpa using hmu)
              (by simpa using hsg) (by simpa using hcs)

/-- C5: `normalize(axis, control)` replaces each training-input leaf `i` with
`(data - mean_i) / std_i` elementwise exactly when `control[i]` is true
(control defaults to all-true), applies the same train-statistics transform
to the test and validation input sets when present, leaves `control[i] =
false` leaves unchanged, and stores the transform as `normalizer`. -/
theorem C5_normalize_spec (sqrtA : ℚ → ℚ) (d : Dataset) (c : List Bool) (i : ℕ)
    (hc : c.length = d.trainInputs.length) (hi : i < d.trainInputs.length) :
    ((Dataset.normalize sqrtA (some c) d).trainInputs.getD i []
      = if c.getD i true then
          (d.trainInputs.getD i []).map
            (fun v => (v - listMean (d.trainInputs.getD i []))
              / sqrtA (sampleVar (d.trainInputs.getD i [])))
        else d.trainInputs.getD i []) ∧
    (c.getD i true = false →
      (Dataset.normalize sqrtA (some c) d).trainInputs.getD i []
        = d.trainInputs.getD i []) ∧
    (∀ t, d.testInputs = some t → t.length = d.trainInputs.length →
      (Dataset.normalize sqrtA (some c) d).testInputs
        = some (normalizeLeaves t (d.trainInputs.map listMean)
            (d.trainInputs.map (fun x => sqrtA (sampleVar x))) c) ∧
      ((Dataset.normalize sqrtA (some c) d).testInputs.getD []).getD i []
        = if c.getD i true then
            (t.getD i []).map
              (fun v => (v - listMean (d.trainInputs.getD i []))
                / sqrtA (sampleVar (d.trainInputs.getD i [])))
          else t.getD i []) ∧
    (∀ v, d.validationInputs = some v → v.length = d.trainInputs.length →
      (Dataset.normalize sqrtA (some c) d).validationInputs
        = some (normalizeLeaves v (d.trainInputs.map listMean)
            (d.trainInputs.map (fun x => sqrtA (sampleVar x))) c) ∧
      ((Dataset.normalize sqrtA (some c) d).validationInputs.getD []).getD i []
        = if c.getD i true then
            (v.getD i []).map
              (fun w => (w - listMean (d.trainInputs.getD i []))
                / sqrtA (sampleVar (d.trainInputs.getD i [])))
          else v.getD i []) ∧
    ((Dataset.normalize sqrtA (some c) d).normalizer
      = fun data => normalizeLeaves data (d.trainInputs.map listMean)
          (d.trainInputs.map (fun x => sqrtA (sampleVar x))) c) ∧
    ((Dataset.normalize sqrtA none d).trainInputs
      = normalizeLeaves d.trainInputs (d.trainInputs.map listMean)
          (d.trainInputs.map (fun x => sqrtA (sampleVar x)))
          (List.replicate d.trainInputs.length true)) := by
  have htrain : (Dataset.normalize sqrtA (some c) d).trainInputs
      = normalizeLeaves d.trainInputs (d.trainInputs.map listMean)
          (d.trainInputs.map (fun x => sqrtA (sampleVar x))) c := rfl
  have hleaf : (normalizeLeaves d.trainInputs (d.trainInputs.map listMean)
      (d.trainInputs.map (fun x => sqrtA (sampleVar x))) c).getD i []
        = if c.getD i true then
            (d.trainInputs.getD i []).map
              (fun v => (v - listMean (d.trainInputs.getD i []))
                / sqrtA (sampleVar (d.trainInputs.getD i [])))
          else d.trainInputs.getD i [] := by
    rw [normalizeLeaves_getD d.trainInputs _ _ c i hi
      (by rw [List.length_map]) (by rw [List.length_map]) hc,
      getD_map_of_lt listMean 0 [] d.trainInputs i hi,
      getD_map_of_lt (fun x => sqrtA (sampleVar x)) 0 [] d.trainInputs i hi]
  refine ⟨?_, ?_, ?_, ?_, ?_, ?_⟩
  · rw [htrain, hleaf]
  · intro hfalse
    rw [htrain, hleaf, hfalse]
    simp
  · intro t ht hlen
    have h3 : (Dataset.normalize sqrtA (some c) d).testInputs
        = some (normalizeLeaves t (d.trainInputs.map listMean)
            (d.trainInputs.map (fun x => sqrtA (sampleVar x))) c) := by
      simp only [Dataset.normalize, Dataset.updateStats, ht]
    refine ⟨h3, ?_⟩
    rw [h3]
    show (normalizeLeaves t (d.trainInputs.map listMean)
        (d.trainInputs.map (fun x => sqrtA (sampleVar x))) c).getD i [] = _
    rw [normalizeLeaves_getD t _ _ c i (by omega)
      (by rw [List.length_map, hlen]) (by rw [List.length_map, hlen])
      (by rw [hc, hlen]),
      getD_map_of_lt listMean 0 [] d.trainInputs i hi,
      getD_map_of_lt (fun x => sqrtA (sampleVar x)) 0 [] d.trainInputs i hi]
  · intro v hv hlen
    have h4 : (Dataset.normalize sqrtA (some c) d).validationInputs
        = some (normalizeLeaves v (d.trainInputs.map listMean)
            (d.trainInputs.map (fun x => sqrtA (sampleVar x))) c) := by
      simp only [Dataset.normalize, Dataset.updateStats, hv]
    refine ⟨h4, ?_⟩
    rw [h4]
    show (normalizeLeaves v (d.trainInputs.map listMean)
        (d.trainInputs.map (fun x => sqrtA (sampleVar x))) c).getD i [] = _
    rw [normalizeLeaves_getD v _ _ c i (by omega)
      (by rw [List.length_map, hlen]) (by rw [List.length_map, hlen])
      (by rw [hc, hlen]),
      getD_map_of_lt listMean 0 [] d.trainInputs i hi,
      getD_map_of_lt (fun x => sqrtA (sampleVar x)) 0 [] d.trainInputs i hi]
  · rfl
  · rfl

/-- C5 witness: a concrete dataset with two input leaves, test and validation
sets, normalized with `control = [true, false]` at leaf 0. -/
theorem C5_normalize_witness :
    ((Dataset.normalize id (some [true, false]) dsNorm).trainInputs.getD 0 []
      = if [true, false].getD 0 true then
          (dsNorm.trainInputs.getD 0 []).map
            (fun v => (v - listMean (dsNorm.trainInputs.getD 0 []))
              / id (sampleVar (dsNorm.trainInputs.getD 0 [])))
        else dsNorm.trainInputs.getD 0 []) ∧
    ([true, false].getD 0 true = false →
      (Dataset.normalize id (some [true, false]) dsNorm).trainInputs.getD 0 []
        = dsNorm.trainInputs.getD 0 []) ∧
    (∀ t, dsNorm.testInputs = some t → t.length = dsNorm.trainInputs.length →
      (Dataset.normalize id (some [true, false]) dsNorm).testInputs
        = some (normalizeLeaves t (dsNorm.trainInputs.map listMean)
            (dsNorm.trainInputs.map (fun x => id (sampleVar x))) [true, false]) ∧
      ((Dataset.normalize id (some [true, false]) dsNorm).testInputs.getD []).getD 0 []
        = if [true, false].getD 0 true then
            (t.getD 0 []).map
              (fun v => (v - listMean (dsNorm.trainInputs.getD 0 []))
                / id (sampleVar (dsNorm.trainInputs.getD 0 [])))
          else t.getD 0 []) ∧
    (∀ v, dsNorm.validationInputs = some v →
        v.length = dsNorm.trainInputs.length →
      (Dataset.normalize id (some [true, false]) dsNorm).validationInputs
        = some (normalizeLeaves v (dsNorm.trainInputs.map listMean)
            (dsNorm.trainInputs.map (fun x => id (sampleVar x))) [true, false]) ∧
      ((Dataset.normalize id (some [true, false])
          dsNorm).validationInputs.getD []).getD 0 []
        = if [true, false].getD 0 true then
            (v.getD 0 []).map
              (fun w => (w - listMean (dsNorm.trainInputs.getD 0 []))
                / id (sampleVar (dsNorm.trainInputs.getD 0 [])))
          else v.getD 0 []) ∧
    ((Dataset.normalize id (some [true, false]) dsNorm).normalizer
      = fun data => normalizeLeaves data (dsNorm.trainInputs.map listMean)
          (dsNorm.trainInputs.map (fun x => id (sampleVar x))) [true, false]) ∧
    ((Dataset.normalize id none dsNorm).trainInputs
      = normalizeLeaves dsNorm.trainInputs (dsNorm.trainInputs.map listMean)
          (dsNorm.trainInputs.map (fun x => id (sampleVar x)))
          (List.replicate dsNorm.trainInputs.length true)) :=
  C5_normalize_spec id dsNorm [true, false] 0 (by rfl) (by decide)

/-- C10: `normalize` rewrites only the input leaves, statistics and the
stored normalizer: all target leaf sequences, the labels, the nesting
templates, the split index lists and the whole minibatch state are
unchanged. -/
theorem C10_normalize_targets_frame (sqrtA : ℚ → ℚ) (c : Option (List Bool))
    (d : Dataset) :
    (Dataset.normalize sqrtA c d).trainTargets = d.trainTargets ∧
    (Dataset.normalize sqrtA c d).testTargets = d.testTargets ∧
    (Dataset.normalize sqrtA c d).validationTargets = d.validationTargets ∧
    (Dataset.normalize sqrtA c d).inputsLabel = d.inputsLabel ∧
    (Dataset.normalize sqrtA c d).targetsLabel = d.targetsLabel ∧
    (Dataset.normalize sqrtA c d).inputsStructure = d.inputsStructure ∧
    (Dataset.normalize sqrtA c d).targetsStructure = d.targetsStructure ∧
    (Dataset.normalize sqrtA c d).trainIdx = d.trainIdx ∧
    (Dataset.normalize sqrtA c d).validationIdx = d.validationIdx ∧
    (Dataset.normalize sqrtA c d).minibatchIdx = d.minibatchIdx ∧
    (Dataset.normalize sqrtA c d).trainPerm = d.trainPerm ∧
    (Dataset.normalize sqrtA c d).minibatchIndicies = d.minibatchIndicies :=
  ⟨rfl, rfl, rfl, rfl, rfl, rfl, rfl, rfl, rfl, rfl, rfl, rfl⟩

theorem le_foldl_min (f : Dataset → ℕ) (b : ℕ) :
    ∀ (l : List Dataset) (a : ℕ),
      (b ≤ l.foldl (fun m x => min m (f x)) a ↔ b ≤ a ∧ ∀ x ∈ l, b ≤ f x) := by
  intro l
  induction l with
  | nil => intro a; simp
  | cons x xs ih =>
    intro a
    rw [List.foldl_cons, ih (min a (f x)), le_min_iff]
    constructor
    · rintro ⟨⟨h1, h2⟩, h3⟩
      exact ⟨h1, fun y hy => by
        rcases List.mem_cons.1 hy with h | h
        · rw [h]; exact h2
        · exact h3 y h⟩
    · rintro ⟨h1, h2⟩
      exact ⟨⟨h1, h2 x (by simp)⟩, fun y hy => h2 y (by simp [hy])⟩

theorem foldl_min_le (f : Dataset → ℕ) :
    ∀ (l : List Dataset) (a : ℕ),
      l.foldl (fun m x => min m (f x)) a ≤ a ∧
      (∀ x ∈ l, l.foldl (fun m x => min m (f x)) a ≤ f x) ∧
      (l.foldl (fun m x => min m (f x)) a = a ∨
        ∃ x ∈ l, l.foldl (fun m x => min m (f x)) a = f x) := by
  intro l
  induction l with
  | nil => intro a; simp
  | cons x xs ih =>
    intro a
    rw [List.foldl_cons]
    obtain ⟨h1, h2, h3⟩ := ih (min a (f x))
    refine ⟨h1.trans (min_le_left _ _), ?_, ?_⟩
    · intro y hy
      rcases List.mem_cons.1 hy with h | h
      · rw [h]; exact h1.trans (min_le_right _ _)
      · exact h2 y h
    · rcases h3 with h | ⟨y, hy, he⟩
      · rcases le_total a (f x) with hle | hle
        · left; rw [h, Nat.min_eq_left hle]
        · right; exact ⟨x, by simp, by rw [h, Nat.min_eq_right hle]⟩
      · right; exact ⟨y, by simp [hy], he⟩

/-- `min` over a nonempty projection list: the result is a lower bound and is
attained by some held dataset. -/
theorem mdMinBy_spec (f : Dataset → ℕ) (d0 : Dataset) (tl : List Dataset)
    (m : ℕ) (h : mdMinBy f (d0 :: tl) = some m) :
    (∀ x ∈ d0 :: tl, m ≤ f x) ∧ ∃ x ∈ d0 :: tl, f x = m := by
  have hm : tl.foldl (fun m x => min m (f x)) (f d0) = m := by
    simpa [mdMinBy] using h
  obtain ⟨h1, h2, h3⟩ := foldl_min_le f tl (f d0)
  constructor
  · intro x hx
    rcases List.mem_cons.1 hx with hh | hh
    · rw [hh, ← hm]; exact h1
    · rw [← hm]; exact h2 x hh
  · rcases h3 with hh | ⟨y, hy, he⟩
    · exact ⟨d0, by simp, by rw [← hm, hh]⟩
    · exact ⟨y, by simp [hy], by rw [← hm, he]⟩

/-- When every held dataset can serve the batch, the sequential per-dataset
minibatch comprehension succeeds, producing one result per dataset in
construction order: entry `i` comes from a `minibatch` call on dataset `i`
(at the random state threaded to it). -/
theorem mdMinibatchGo_ok (R : RandLib) (b : ℕ) :
    ∀ (ds : List Dataset) (s : R.S), (∀ d ∈ ds, b ≤ d.nTrainSamples) →
      ∃ batches ds1 s1, mdMinibatchGo R b ds s = .ok (batches, ds1, s1) ∧
        batches.length = ds.length ∧ ds1.length = ds.length ∧
        ∀ i, i < ds.length → ∃ si si2,
          Dataset.minibatch R b (ds.getD i default) si
            = .ok (batches.getD i ([], []), ds1.getD i default, si2) := by
  intro ds
  induction ds with
  | nil =>
    intro s h
    exact ⟨[], [], s, rfl, rfl, rfl, fun i hi => absurd hi (by simp)⟩
  | cons d ds ih =>
    intro s hall
    have hle : b ≤ d.nTrainSamples := hall d (by simp)
    have h1 : ¬ d.nTrainSamples < b := by omega
    cases hres : Dataset.minibatch R b d s with
    | error e =>
      simp only [Dataset.minibatch, if_neg h1] at hres
      exact Except.noConfusion hres
    | ok res =>
      obtain ⟨batch, d1, s1⟩ := res
      obtain ⟨batches, ds1, s2, hgo, hlen1, hlen2, hidx⟩ :=
        ih s1 (fun x hx => hall x (by simp [hx]))
      refine ⟨batch :: batches, d1 :: ds1, s2, ?_, ?_, ?_, ?_⟩
      · simp only [mdMinibatchGo, hres, hgo]
      · simp [hlen1]
      · simp [hlen2]
      · intro i hi
        cases i with
        | zero => exact ⟨s, s1, by simpa using hres⟩
        | succ i => simpa using hidx i (by simpa using hi)

/-- C8: for a `MultiDataset` holding at least one dataset,
`n_train_samples` / `n_test_samples` / `n_validation_samples` are the minimum
of the corresponding per-dataset counts (a lower bound that is attained), and
`minibatch(b)` raises the size-constraint error exactly when `b` exceeds the
training minimum; otherwise it serves one same-sized minibatch per held
dataset and returns the parallel per-dataset input and target sequences in
construction order. -/
theorem C8_multidataset_min_minibatch (R : RandLib) (b : ℕ) (d0 : Dataset)
    (tl : List Dataset) (s : R.S) :
    (∀ m, mdNTrainSamples (d0 :: tl) = some m →
      (∀ x ∈ d0 :: tl, m ≤ x.nTrainSamples) ∧
      ∃ x ∈ d0 :: tl, x.nTrainSamples = m) ∧
    (∀ m, mdNTestSamples (d0 :: tl) = some m →
      (∀ x ∈ d0 :: tl, m ≤ x.nTestSamples) ∧
      ∃ x ∈ d0 :: tl, x.nTestSamples = m) ∧
    (∀ m, mdNValidationSamples (d0 :: tl) = some m →
      (∀ x ∈ d0 :: tl, m ≤ x.nValidationSamples) ∧
      ∃ x ∈ d0 :: tl, x.nValidationSamples = m) ∧
    (∀ m, mdNTrainSamples (d0 :: tl) = some m →
      (m < b → ∃ e, mdMinibatch R b (d0 :: tl) s = .error e) ∧
      ((∃ e, mdMinibatch R b (d0 :: tl) s = .error e) → m < b) ∧
      (b ≤ m → ∃ outI outT ds1 s1,
        mdMinibatch R b (d0 :: tl) s = .ok ((outI, outT), ds1, s1) ∧
        outI.length = (d0 :: tl).length ∧ outT.length = (d0 :: tl).length ∧
        ds1.length = (d0 :: tl).length ∧
        ∀ i, i < (d0 :: tl).length → ∃ si si2,
          Dataset.minibatch R b ((d0 :: tl).getD i default) si
            = .ok ((outI.getD i [], outT.getD i []),
                ds1.getD i default, si2))) := by
  refine ⟨fun m hm => mdMinBy_spec _ d0 tl m hm,
    fun m hm => mdMinBy_spec _ d0 tl m hm,
    fun m hm => mdMinBy_spec _ d0 tl m hm, ?_⟩
  intro m hm
  have hok : ∀ hb : b ≤ m, ∃ outI outT ds1 s1,
      mdMinibatch R b (d0 :: tl) s = .ok ((outI, outT), ds1, s1) ∧
      outI.length = (d0 :: tl).length ∧ outT.length = (d0 :: tl).length ∧
      ds1.length = (d0 :: tl).length ∧
      ∀ i, i < (d0 :: tl).length → ∃ si si2,
        Dataset.minibatch R b ((d0 :: tl).getD i default) si
          = .ok ((outI.getD i [], outT.getD i []), ds1.getD i default, si2) := by
    intro hb
    have hall : ∀ x ∈ d0 :: tl, b ≤ x.nTrainSamples := fun x hx =>
      hb.trans ((mdMinBy_spec _ d0 tl m hm).1 x hx)
    obtain ⟨batches, ds1, s1, hgo, hlen1, hlen2, hidx⟩ :=
      mdMinibatchGo_ok R b (d0 :: tl) s hall
    refine ⟨batches.map Prod.fst, batches.map Prod.snd, ds1, s1, ?_, ?_, ?_,
      hlen2, ?_⟩
    · simp only [mdMinibatch, hm, if_neg (by omega : ¬ m < b), hgo]
    · simp [hlen1]
    · simp [hlen1]
    · intro i hi
      obtain ⟨si, si2, hcall⟩ := hidx i hi
      refine ⟨si, si2, ?_⟩
      rw [getD_map_of_lt Prod.fst [] ([], []) batches i (by omega),
        getD_map_of_lt Prod.snd [] ([], []) batches i (by omega)]
      exact hcall
  refine ⟨?_, ?_, hok⟩
  · intro hlt
    refine ⟨"Batch size must be smaller than or equal to total number of samples", ?_⟩
    simp only [mdMinibatch, hm, if_pos hlt]
  · intro ⟨e, he⟩
    by_contra hcontra
    obtain ⟨outI, outT, ds1, s1, hokk, _⟩ := hok (by omega)
    rw [hokk] at he
    exact Except.noConfusion he

/-- C8 witness: two held datasets of training sizes 10 and 20:
`n_train_samples` is 10, `minibatch(15)` fails with the size-constraint error
and `minibatch(5)` returns one batch per dataset. -/
theorem C8_multidataset_witness :
    (∃ e, mdMinibatch natRand 15 (dsOfSize 10 :: [dsOfSize 20]) (0 : ℕ)
      = .error e) ∧
    (∃ outI outT ds1 s1,
      mdMinibatch natRand 5 (dsOfSize 10 :: [dsOfSize 20]) (0 : ℕ)
        = .ok ((outI, outT), ds1, s1) ∧
      outI.length = (dsOfSize 10 :: [dsOfSize 20]).length ∧
      outT.length = (dsOfSize 10 :: [dsOfSize 20]).length ∧
      ds1.length = (dsOfSize 10 :: [dsOfSize 20]).length ∧
      ∀ i, i < (dsOfSize 10 :: [dsOfSize 20]).length → ∃ si si2,
        Dataset.minibatch natRand 5 ((dsOfSize 10 :: [dsOfSize 20]).getD i default) si
          = .ok ((outI.getD i [], outT.getD i []), ds1.getD i default, si2)) := by
  constructor
  · exact (((C8_multidataset_min_minibatch natRand 15 (dsOfSize 10)
      [dsOfSize 20] 0).2.2.2 10 (by decide)).1 (by decide))
  · exact (((C8_multidataset_min_minibatch natRand 5 (dsOfSize 10)
      [dsOfSize 20] 0).2.2.2 10 (by decide)).2.2 (by decide))

end Atflow
